import Mathlib

/-!
Verification of the zinc transcription core.

The Rust sources are shallowly embedded as follows: Rust `String`/`&str`
values become `List Char`; `f64` arithmetic is modelled by exact rational
arithmetic (`ℚ`) with explicit truncation functions mirroring Rust casts
and the floating `%` operator; integer timestamps (`i64`) become `ℤ`;
fallible operations return `Except`; external effects (subprocess spawns,
file writes) are recorded as explicit event traces.
-/

namespace Zinc

/-- Rust strings are modelled as lists of characters. -/
abbrev Str := List Char

/-- Whitespace test used by Rust `str::trim`. -/
def isWs (c : Char) : Bool := c.isWhitespace

/-- Model of Rust `str::trim`: drop leading and trailing whitespace. -/
def trim (xs : Str) : Str := ((xs.dropWhile isWs).reverse.dropWhile isWs).reverse

/-- Model of Rust `Vec::join`: concatenate with a separator between elements. -/
def join_with (sep : Str) : List Str → Str
  | [] => []
  | [x] => x
  | x :: y :: t => x ++ sep ++ join_with sep (y :: t)

/-- Truncation toward zero: the rounding of Rust float-to-integer casts and of
the float `%` operator, in exact rational arithmetic. -/
def ftrunc (x : ℚ) : ℤ := if 0 ≤ x then ⌊x⌋ else ⌈x⌉

/-- Rust `%` on floats: `x - y * (x / y).trunc()`, in exact rational arithmetic. -/
def fRem (x y : ℚ) : ℚ := x - y * ftrunc (x / y)

/-- Rust saturating `as u32` cast of a float value. -/
def toU32 (x : ℚ) : ℕ := min (ftrunc x).toNat 4294967295

/-- Zero-padded decimal rendering: Rust format `{:0w}` (minimum width `w`,
left padding with zeros). -/
def padNat (w : ℕ) (n : ℕ) : Str :=
  List.replicate (w - (Nat.repr n).length) '0' ++ (Nat.repr n).data

/-- Field computation of `format_srt_time` (engine.rs lines 58-65):
hours, minutes, seconds and milliseconds obtained by division and `%`
on the seconds value, each truncated by an `as u32` cast. -/
def srt_time_parts (seconds : ℚ) : ℕ × ℕ × ℕ × ℕ :=
  (toU32 (seconds / 3600),
   toU32 (fRem seconds 3600 / 60),
   toU32 (fRem seconds 60),
   toU32 (fRem seconds 1 * 1000))

/-- Model of `format_srt_time` (engine.rs lines 58-65): renders
`HH:MM:SS,mmm` with two-digit padded hours, minutes and seconds and
three-digit padded milliseconds. -/
def format_srt_time (seconds : ℚ) : Str :=
  padNat 2 (srt_time_parts seconds).1 ++ [':'] ++
    padNat 2 (srt_time_parts seconds).2.1 ++ [':'] ++
    padNat 2 (srt_time_parts seconds).2.2.1 ++ [','] ++
    padNat 3 (srt_time_parts seconds).2.2.2

/-- Value denoted by an `HH:MM:SS,mmm` timestamp, used to state the
round-trip property of `format_srt_time`. -/
def srt_time_value (h m s ms : ℕ) : ℚ := h * 3600 + m * 60 + s + (ms : ℚ) / 1000

/-- Sentence terminator test of `generate_srt_from_text` (engine.rs line 76). -/
def isTerminator (c : Char) : Bool := c = '.' || c = '!' || c = '?'

/-- Sentence splitting of `generate_srt_from_text` (engine.rs lines 75-79):
split the trimmed text on terminators, trim each piece, drop empty pieces. -/
def sentencesOf (text : Str) : List Str :=
  (((trim text).splitOnP isTerminator).map trim).filter fun s => !s.isEmpty

/-- Captions produced by `generate_srt_from_text` (engine.rs lines 67-103) as
(start, end, text) triples before rendering: empty trimmed text yields no
captions, no sentences yields one caption spanning the whole duration, and
otherwise each sentence gets an equal share of the duration in order with a
period appended. -/
def srt_captions (text : Str) (duration_secs : ℚ) : List (ℚ × ℚ × Str) :=
  if (trim text).isEmpty then []
  else if (sentencesOf text).isEmpty then [(0, duration_secs, trim text)]
  else
    (sentencesOf text).enum.map fun is =>
      ((is.1 : ℚ) * (duration_secs / (sentencesOf text).length),
       ((is.1 : ℚ) + 1) * (duration_secs / (sentencesOf text).length),
       is.2 ++ ['.'])

/-- Rendering of `generate_srt_from_text`: caption index, time range and text
in SRT syntax. -/
def generate_srt_from_text (text : Str) (duration_secs : ℚ) : Str :=
  ((srt_captions text duration_secs).enum.map fun ic =>
    (Nat.repr (ic.1 + 1)).data ++ ['\n'] ++ format_srt_time ic.2.1 ++
      " --> ".data ++ format_srt_time ic.2.2.1 ++ ['\n'] ++ ic.2.2.2 ++
      ['\n', '\n']).flatten

/-- Transcript segment (start_ms, end_ms, text), the unit produced by the
timestamp-aware engine. -/
abbrev Seg := ℤ × ℤ × Str

/-- Overlap merge step of `WhisperRsEngine::transcribe_chunked`
(whisper_rs_engine.rs lines 381-403): when both the accumulated list and the
new chunk list are non-empty, retain accumulated segments that end at or
before the boundary or start before it, then append the new segments starting
at or after the boundary; otherwise extend the accumulated list with the new
segments unchanged. -/
def merge_step (all_segments chunk_segments : List Seg)
    (overlap_start_ms : ℤ) : List Seg :=
  if all_segments ≠ [] ∧ chunk_segments ≠ [] then
    (all_segments.filter fun s =>
        decide (s.2.1 ≤ overlap_start_ms) || decide (s.1 < overlap_start_ms)) ++
      chunk_segments.filter fun s => decide (overlap_start_ms ≤ s.1)
  else
    all_segments ++ chunk_segments

/-- Duration threshold for chunked transcription (whisper_rs_engine.rs line 14). -/
def CHUNK_DURATION_SECS : ℚ := 300

/-- Overlap between chunks (whisper_rs_engine.rs line 16). -/
def CHUNK_OVERLAP_SECS : ℚ := 2

/-- Effective stride between chunk starts (whisper_rs_engine.rs line 223). -/
def effective_chunk_duration : ℚ := CHUNK_DURATION_SECS - CHUNK_OVERLAP_SECS

/-- Chunk count of `transcribe_chunked` (whisper_rs_engine.rs lines 224-225):
ceiling of (duration - overlap) / stride, saturating `as usize`, minimum 1. -/
def num_chunks (duration : ℚ) : ℕ :=
  max (Int.toNat ⌈(duration - CHUNK_OVERLAP_SECS) / effective_chunk_duration⌉) 1

/-- Start time of chunk i (whisper_rs_engine.rs line 245). -/
def chunk_start (chunk_idx : ℕ) : ℚ := chunk_idx * effective_chunk_duration

/-- Length of chunk i (whisper_rs_engine.rs lines 246-251): the final chunk is
extended to the true end of the audio, the others are full-size. -/
def chunk_len (duration : ℚ) (chunk_idx : ℕ) : ℚ :=
  if chunk_idx = num_chunks duration - 1 then duration - chunk_start chunk_idx
  else CHUNK_DURATION_SECS

/-- Windows actually processed by the per-chunk loop of `transcribe_chunked`
(whisper_rs_engine.rs lines 244-256): chunks shorter than half a second are
skipped, the rest are extracted and transcribed in order. -/
def chunk_specs (duration : ℚ) : List (ℚ × ℚ) :=
  ((List.range (num_chunks duration)).map fun i =>
    (chunk_start i, chunk_len duration i)).filter fun p => !decide (p.2 < 1 / 2)

/-- Mutable per-task state: the fields of the `Download` record that the
progress forwarders and result handlers in commands.rs touch. -/
structure Task where
  status : String
  progress : ℚ
  error : Option String
  transcription_progress : Option ℚ
  transcription_message : Option String
deriving DecidableEq

/-- Transcription progress forwarder body (commands.rs lines 231-250 and
703-722): the `complete` stage is consumed silently, a task whose status is
`completed` is left untouched, and otherwise the status becomes
`transcribing:` followed by the stage and the progress fields are updated. -/
def forward_transcribe_progress (t : Task) (stage : String) (prog : ℚ)
    (message : String) : Task :=
  if stage = "complete" then t
  else if t.status = "completed" then t
  else { t with status := "transcribing:" ++ stage,
                transcription_progress := some prog,
                transcription_message := some message }

/-- Handler run when transcription fails for a remote-fetch (download) task
(commands.rs lines 280-291): the task is still completed, with the failure
recorded as a warning in the error field. -/
def remote_transcription_failed (t : Task) (e : String) : Task :=
  { t with status := "completed", progress := 100,
           error := some ("Subtitle generation failed: " ++ e) }

/-- Handler run when transcription fails for a local-transcribe task
(commands.rs lines 754-765): unless the task was already cancelled, the
status becomes `error` and the message is stored in the error field. -/
def local_transcription_failed (t : Task) (e : String) : Task :=
  if t.status ≠ "cancelled" then { t with status := "error", error := some e }
  else t

/-- Example task in the cancelled state, used for the cancellation claims. -/
def cancelled_task : Task :=
  { status := "cancelled", progress := 40, error := none,
    transcription_progress := none, transcription_message := none }

/-- Externally observable pipeline actions: `probe` is the ffprobe duration
query, `extract` the ffmpeg window extraction, `inference` one speech
inference run (a sherpa-onnx subprocess for the text-only engine, an
in-process library call for the whisper engine), `writeSrt` the write of the
caption file to the output location. -/
inductive PEvent where
  | probe
  | extract
  | inference
  | writeSrt
deriving DecidableEq

/-- Segment harvesting of one whisper chunk (whisper_rs_engine.rs lines
350-371): centisecond timestamps become milliseconds, the chunk offset is
added, and whitespace-only segments are dropped. -/
def collect_segments (chunk_offset_ms : ℤ) (raw : List (ℤ × ℤ × Str)) :
    List Seg :=
  raw.filterMap fun r =>
    if (trim r.2.2).isEmpty then none
    else some (r.1 * 10 + chunk_offset_ms, r.2.1 * 10 + chunk_offset_ms, r.2.2)

/-- Per-chunk loop of `transcribe_chunked` (whisper_rs_engine.rs lines
241-404): each non-skipped chunk is transcribed (its raw segments supplied by
the oracle `raw_segments`) and merged into the accumulated list with the
chunk start in milliseconds as boundary and offset. -/
def whisper_chunked_run (duration : ℚ) (raw_segments : ℕ → List (ℤ × ℤ × Str)) :
    List Seg :=
  (List.range (num_chunks duration)).foldl
    (fun all_segments i =>
      if chunk_len duration i < 1 / 2 then all_segments
      else
        merge_step all_segments
          (collect_segments (ftrunc (chunk_start i * 1000)) (raw_segments i))
          (ftrunc (chunk_start i * 1000)))
    []

/-- Subprocess trace of the per-chunk loop: one ffmpeg extraction and one
inference per non-skipped chunk (whisper_rs_engine.rs lines 274-297). -/
def whisper_chunk_events (duration : ℚ) : List PEvent :=
  (List.range (num_chunks duration)).foldl
    (fun evs i =>
      if chunk_len duration i < 1 / 2 then evs
      else evs ++ [PEvent.extract, PEvent.inference])
    []

/-- Error reported when inference yields no text (whisper_rs_engine.rs lines
417-422 and 819-824). -/
def empty_transcript_error : String :=
  "Transcription produced no text. The audio may be silent or corrupted."

/-- SRT rendering from timestamped segments (whisper_rs_engine.rs lines
174-191). -/
def generate_srt_from_segments (segments : List Seg) : Str :=
  (segments.enum.map fun is =>
    (Nat.repr (is.1 + 1)).data ++ ['\n'] ++
      format_srt_time ((is.2.1 : ℚ) / 1000) ++ " --> ".data ++
      format_srt_time ((is.2.2.1 : ℚ) / 1000) ++ ['\n'] ++
      trim is.2.2.2 ++ ['\n', '\n']).flatten

/-- End of `transcribe_chunked` (whisper_rs_engine.rs lines 417-443): error
out when no segments were produced, otherwise defensively sort by start time
and render the SRT. The Ok value is the SRT content written to the output
path; an Err return means no SRT file is written. -/
def whisper_finalize (all_segments : List Seg) : Except String Str :=
  if all_segments.isEmpty then .error empty_transcript_error
  else .ok (generate_srt_from_segments
    (all_segments.mergeSort fun a b => decide (a.1 ≤ b.1)))

/-- End of the single-shot whisper path (whisper_rs_engine.rs lines 819-833):
identical to the chunked finalization but without the defensive sort. -/
def whisper_finalize_single (segments : List Seg) : Except String Str :=
  if segments.isEmpty then .error empty_transcript_error
  else .ok (generate_srt_from_segments segments)

/-- Not-installed error of the whisper engine (whisper_rs_engine.rs lines
214-219 and 679-684). -/
def whisper_not_installed_error (model : String) : String :=
  "Model \x27" ++ model ++ "\x27 is not installed. Please download it first."

/-- Trace model of `WhisperRsEngine::transcribe` (whisper_rs_engine.rs lines
646-843): the ffprobe duration query always runs first; then, in both the
chunked (duration above 300 s) and single-shot branches, a missing model file
aborts with the not-installed error before any further subprocess; otherwise
the chunk loop (or single inference) runs, and the SRT is written only on a
non-empty result. -/
def whisper_transcribe_run (model_installed : Bool) (model : String)
    (duration : ℚ) (raw_segments : ℕ → List (ℤ × ℤ × Str)) :
    List PEvent × Except String Str :=
  if CHUNK_DURATION_SECS < duration then
    if model_installed = false then
      ([PEvent.probe], .error (whisper_not_installed_error model))
    else
      match whisper_finalize (whisper_chunked_run duration raw_segments) with
      | .error e => (PEvent.probe :: whisper_chunk_events duration, .error e)
      | .ok srt =>
          (PEvent.probe :: whisper_chunk_events duration ++ [PEvent.writeSrt],
           .ok srt)
  else
    if model_installed = false then
      ([PEvent.probe], .error (whisper_not_installed_error model))
    else
      match whisper_finalize_single (collect_segments 0 (raw_segments 0)) with
      | .error e => ([PEvent.probe, PEvent.inference], .error e)
      | .ok srt => ([PEvent.probe, PEvent.inference, PEvent.writeSrt], .ok srt)

/-- Availability gate of `TranscriptionManager::transcribe`
(transcription_manager.rs lines 111-134): an engine whose `is_available`
check fails is rejected with a not-installed error before the engine is
invoked, so no event of the engine run happens. -/
def manager_transcribe (engine_id : String) (engine_available : Bool)
    (engine_run : List PEvent × Except String Str) :
    List PEvent × Except String Str :=
  if engine_available = false then
    ([], .error ("Engine \x27" ++ engine_id ++ "\x27 is not installed"))
  else engine_run

/-- Moonshine chunk duration (moonshine.rs line 230). -/
def MOONSHINE_CHUNK_DURATION : ℚ := 30

/-- Chunk count of `MoonshineEngine::transcribe_chunked` (moonshine.rs line
366): ceiling of duration / 30 with a saturating `as usize` cast. -/
def moonshine_num_chunks (total_duration : ℚ) : ℕ :=
  Int.toNat ⌈total_duration / MOONSHINE_CHUNK_DURATION⌉

/-- Outcome of one moonshine chunk iteration: the ffmpeg extraction either
fails (which aborts the loop) or succeeds, in which case the sherpa
subprocess run yields a transcript or an error. -/
inductive ChunkRun where
  | extractFailed (e : String)
  | infer (r : Except String Str)

/-- Discriminator for extraction failures. -/
def ChunkRun.isExtractFail : ChunkRun → Bool
  | .extractFailed _ => true
  | .infer _ => false

/-- Chunk loop of `MoonshineEngine::transcribe_chunked` (moonshine.rs lines
385-461): an extraction failure aborts with an error; a failed chunk
transcription is logged and skipped; a whitespace-only transcript is skipped;
non-empty transcripts are accumulated trimmed, in order. -/
def moonshine_chunk_loop : List ChunkRun → Except String (List Str)
  | [] => .ok []
  | .extractFailed e :: _ =>
      .error ("ffmpeg chunk extraction failed: " ++ e)
  | .infer (.error _) :: rest => moonshine_chunk_loop rest
  | .infer (.ok t) :: rest =>
      if (trim t).isEmpty then moonshine_chunk_loop rest
      else (moonshine_chunk_loop rest).map fun ts => trim t :: ts

/-- Text contribution of one chunk run: the trimmed transcript when the run
succeeded with a non-whitespace text, nothing otherwise. -/
def chunk_kept : ChunkRun → Option Str
  | .infer (.ok t) => if (trim t).isEmpty then none else some (trim t)
  | .infer (.error _) => none
  | .extractFailed _ => none

/-- Transcripts kept by the chunk loop: the trimmed non-empty texts of the
successful chunk runs, in order. -/
def kept_texts (runs : List ChunkRun) : List Str :=
  runs.filterMap chunk_kept

/-- Subprocess trace of the moonshine chunk loop: an ffmpeg extraction and a
sherpa inference per chunk, stopping at a failed extraction. -/
def moonshine_chunk_events : List ChunkRun → List PEvent
  | [] => []
  | .extractFailed _ :: _ => [PEvent.extract]
  | .infer _ :: rest => PEvent.extract :: PEvent.inference ::
      moonshine_chunk_events rest

/-- Empty-transcript error of the moonshine engine (moonshine.rs line 270). -/
def moonshine_empty_error : String :=
  "Transcription produced no text. The audio may be silent, corrupted, or in an unsupported format."

/-- Trace model of `MoonshineEngine::transcribe` on long audio (moonshine.rs
lines 181-298): the model files and the sherpa binary are checked before any
subprocess; then the ffprobe duration query runs, the chunk loop produces the
transcript as the space-joined kept texts, a whitespace-only final transcript
is an error, and otherwise the SRT generated by the duration-proportional
splitter is written. -/
def moonshine_transcribe_run (model : String)
    (model_files_present binary_present : Bool) (duration : ℚ)
    (runs : List ChunkRun) : List PEvent × Except String Str :=
  if model_files_present = false then
    ([], .error ("Model \x27" ++ model ++ "\x27 is not installed"))
  else if binary_present = false then
    ([], .error "sherpa-onnx is not installed. Please install it first.")
  else
    match moonshine_chunk_loop runs with
    | .error e => (PEvent.probe :: moonshine_chunk_events runs, .error e)
    | .ok ts =>
        if (trim (join_with [' '] ts)).isEmpty then
          (PEvent.probe :: moonshine_chunk_events runs,
           .error moonshine_empty_error)
        else
          (PEvent.probe :: moonshine_chunk_events runs ++ [PEvent.writeSrt],
           .ok (generate_srt_from_text (trim (join_with [' '] ts)) duration))

/-- Example chunk outcomes for a 100 s moonshine run: one good chunk, one
failed chunk, one whitespace-only chunk, one more good chunk. -/
def c9_example_runs : List ChunkRun :=
  [ChunkRun.infer (Except.ok "hello".data),
   ChunkRun.infer (Except.error "boom"),
   ChunkRun.infer (Except.ok " ".data),
   ChunkRun.infer (Except.ok "world".data)]

theorem trim_eq_nil_iff (xs : Str) : trim xs = [] ↔ ∀ c ∈ xs, isWs c := by
  unfold trim
  rw [List.reverse_eq_nil_iff, List.dropWhile_eq_nil_iff]
  constructor
  · intro h c hc
    rw [← List.takeWhile_append_dropWhile (p := isWs) (l := xs)] at hc
    rcases List.mem_append.mp hc with h1 | h1
    · exact List.mem_takeWhile_imp h1
    · exact h c (List.mem_reverse.mpr h1)
  · intro h c hc
    exact h c ((List.dropWhile_sublist _).subset (List.mem_reverse.mp hc))

theorem exists_head_dropWhile {α : Type} (p : α → Bool) (l : List α)
    (h : l.dropWhile p ≠ []) : ∃ c ∈ l.dropWhile p, p c = false := by
  induction l with
  | nil => simp [List.dropWhile] at h
  | cons a t ih =>
    rw [List.dropWhile_cons] at h ⊢
    by_cases hp : p a = true
    · rw [if_pos hp] at h ⊢
      exact ih h
    · rw [if_neg hp] at h ⊢
      exact ⟨a, List.mem_cons_self a _, by simpa using hp⟩

theorem exists_not_ws_of_trim_ne_nil (xs : Str) (h : trim xs ≠ []) :
    ∃ c ∈ trim xs, isWs c = false := by
  have h2 : (xs.dropWhile isWs).reverse.dropWhile isWs ≠ [] := by
    intro hnil
    apply h
    unfold trim
    rw [hnil, List.reverse_nil]
  obtain ⟨c, hc, hcw⟩ := exists_head_dropWhile isWs (xs.dropWhile isWs).reverse h2
  exact ⟨c, by unfold trim; exact List.mem_reverse.mpr hc, hcw⟩

theorem mem_join_with_head (sep : Str) (x : Str) (rest : List Str) (c : Char)
    (hc : c ∈ x) : c ∈ join_with sep (x :: rest) := by
  cases rest with
  | nil => simpa [join_with] using hc
  | cons y t => simp [join_with, hc]

theorem ftrunc_of_nonneg {x : ℚ} (hx : 0 ≤ x) : ftrunc x = ⌊x⌋ := if_pos hx

/-- C10 (amended): for every non-negative seconds value below the `u32` hour
range, `format_srt_time` renders `HH:MM:SS,mmm` with zero-padded fields
obtained by division/modulo with truncation toward zero, the minute/second
fields are below 60, the millisecond field below 1000, and the denoted value
under-approximates the input by strictly less than one millisecond. -/
theorem c10_format_srt_time_amended (d : ℚ) (h0 : 0 ≤ d)
    (hcap : d < 3600 * 4294967296) :
    ∃ h m s ms : ℕ,
      srt_time_parts d = (h, m, s, ms) ∧
      format_srt_time d =
        padNat 2 h ++ [':'] ++ padNat 2 m ++ [':'] ++ padNat 2 s ++ [','] ++
          padNat 3 ms ∧
      m < 60 ∧ s < 60 ∧ ms < 1000 ∧
      0 ≤ d - srt_time_value h m s ms ∧
      d - srt_time_value h m s ms < 1 / 1000 := by
  -- notation for the four integer fields
  set H : ℤ := ⌊d / 3600⌋ with hH
  have hHnn : 0 ≤ H := Int.floor_nonneg.mpr (by positivity)
  have hfr3600 : fRem d 3600 = d - 3600 * H := by
    rw [fRem, ftrunc_of_nonneg (by positivity)]
  have hr_lb : 0 ≤ d - 3600 * (H : ℚ) := by
    have := Int.floor_le (d / 3600)
    rw [← hH] at this
    nlinarith
  have hr_ub : d - 3600 * (H : ℚ) < 3600 := by
    have := Int.lt_floor_add_one (d / 3600)
    rw [← hH] at this
    nlinarith
  set M : ℤ := ⌊(d - 3600 * (H : ℚ)) / 60⌋ with hM
  have hMnn : 0 ≤ M := Int.floor_nonneg.mpr (by positivity)
  have hMlt : M < 60 := by
    rw [hM, Int.floor_lt]
    push_cast
    linarith [hr_ub]
  set S : ℤ := ⌊fRem d 60⌋ with hS
  have hfr60 : fRem d 60 = d - 60 * (⌊d / 60⌋ : ℚ) := by
    rw [fRem, ftrunc_of_nonneg (by positivity)]
  have hS_lb : 0 ≤ fRem d 60 := by
    rw [hfr60]
    have := Int.floor_le (d / 60)
    nlinarith
  have hS_ub : fRem d 60 < 60 := by
    rw [hfr60]
    have := Int.lt_floor_add_one (d / 60)
    nlinarith
  have hSnn : 0 ≤ S := Int.floor_nonneg.mpr hS_lb
  have hSlt : S < 60 := by
    rw [hS, Int.floor_lt]
    push_cast
    linarith [hS_ub]
  have hfr1 : fRem d 1 = d - (⌊d⌋ : ℚ) := by
    rw [fRem, ftrunc_of_nonneg (by positivity)]
    norm_num
  have hf_lb : 0 ≤ fRem d 1 := by
    rw [hfr1]
    have := Int.floor_le d
    linarith
  have hf_ub : fRem d 1 < 1 := by
    rw [hfr1]
    have := Int.lt_floor_add_one d
    linarith
  set MS : ℤ := ⌊fRem d 1 * 1000⌋ with hMS
  have hMSnn : 0 ≤ MS := Int.floor_nonneg.mpr (by positivity)
  have hMSlt : MS < 1000 := by
    rw [hMS, Int.floor_lt]
    push_cast
    linarith
  -- the u32 casts do not saturate
  have hHlt : H < 4294967296 := by
    rw [hH, Int.floor_lt]
    push_cast
    rw [div_lt_iff₀ (by norm_num : (0:ℚ) < 3600)]
    linarith
  have hpartH : toU32 (d / 3600) = H.toNat := by
    rw [toU32, ftrunc_of_nonneg (by positivity), ← hH, min_eq_left]
    omega
  have hpartM : toU32 (fRem d 3600 / 60) = M.toNat := by
    rw [toU32, hfr3600, ftrunc_of_nonneg (by positivity), ← hM, min_eq_left]
    omega
  have hpartS : toU32 (fRem d 60) = S.toNat := by
    rw [toU32, ftrunc_of_nonneg hS_lb, ← hS, min_eq_left]
    omega
  have hpartMS : toU32 (fRem d 1 * 1000) = MS.toNat := by
    rw [toU32, ftrunc_of_nonneg (by positivity), ← hMS, min_eq_left]
    omega
  have hparts : srt_time_parts d = (H.toNat, M.toNat, S.toNat, MS.toNat) := by
    rw [srt_time_parts, hpartH, hpartM, hpartS, hpartMS]
  -- the integer fields reconstruct the floor of d
  have hM_eq : M = ⌊d / 60⌋ - 60 * H := by
    have : (d - 3600 * (H : ℚ)) / 60 = d / 60 - ((60 * H : ℤ) : ℚ) := by
      push_cast
      ring
    rw [hM, this, Int.floor_sub_int]
  have hS_eq : S = ⌊d⌋ - 60 * ⌊d / 60⌋ := by
    have : d - 60 * ((⌊d / 60⌋ : ℤ) : ℚ) = d - ((60 * ⌊d / 60⌋ : ℤ) : ℚ) := by
      push_cast
      ring
    rw [hS, hfr60, this, Int.floor_sub_int]
  have hHMS : 3600 * H + 60 * M + S = ⌊d⌋ := by
    rw [hM_eq, hS_eq]
    ring
  -- the denoted value
  have hvalue : srt_time_value H.toNat M.toNat S.toNat MS.toNat =
      (⌊d⌋ : ℚ) + (MS : ℚ) / 1000 := by
    rw [srt_time_value]
    have cH : ((H.toNat : ℕ) : ℚ) = (H : ℚ) := by
      exact_mod_cast congrArg (fun z : ℤ => (z : ℚ)) (Int.toNat_of_nonneg hHnn)
    have cM : ((M.toNat : ℕ) : ℚ) = (M : ℚ) := by
      exact_mod_cast congrArg (fun z : ℤ => (z : ℚ)) (Int.toNat_of_nonneg hMnn)
    have cS : ((S.toNat : ℕ) : ℚ) = (S : ℚ) := by
      exact_mod_cast congrArg (fun z : ℤ => (z : ℚ)) (Int.toNat_of_nonneg hSnn)
    have cMS : ((MS.toNat : ℕ) : ℚ) = (MS : ℚ) := by
      exact_mod_cast congrArg (fun z : ℤ => (z : ℚ)) (Int.toNat_of_nonneg hMSnn)
    rw [cH, cM, cS, cMS]
    have : ((3600 * H + 60 * M + S : ℤ) : ℚ) = (⌊d⌋ : ℚ) := by
      exact_mod_cast congrArg (fun z : ℤ => (z : ℚ)) hHMS
    push_cast at this ⊢
    linarith
  have hMS_le : (MS : ℚ) ≤ fRem d 1 * 1000 := Int.floor_le _
  have hMS_gt : fRem d 1 * 1000 < (MS : ℚ) + 1 := Int.lt_floor_add_one _
  refine ⟨H.toNat, M.toNat, S.toNat, MS.toNat, hparts, ?_, ?_, ?_, ?_, ?_, ?_⟩
  · rw [format_srt_time, hparts]
  · omega
  · omega
  · omega
  · rw [hvalue, hfr1] at *
    nlinarith [hMS_le, hfr1]
  · rw [hvalue]
    have : d - (⌊d⌋ : ℚ) = fRem d 1 := hfr1.symm
    nlinarith [hMS_gt, hfr1]

theorem c10_format_srt_time_witness :
    (0 : ℚ) ≤ 5 / 2 ∧ (5 / 2 : ℚ) < 3600 * 4294967296 ∧
    0 ≤ (5 / 2 : ℚ) - srt_time_value (srt_time_parts (5 / 2)).1
        (srt_time_parts (5 / 2)).2.1 (srt_time_parts (5 / 2)).2.2.1
        (srt_time_parts (5 / 2)).2.2.2 ∧
    (5 / 2 : ℚ) - srt_time_value (srt_time_parts (5 / 2)).1
        (srt_time_parts (5 / 2)).2.1 (srt_time_parts (5 / 2)).2.2.1
        (srt_time_parts (5 / 2)).2.2.2 < 1 / 1000 := by
  obtain ⟨h, m, s, ms, hp, _, _, _, _, h6, h7⟩ :=
    c10_format_srt_time_amended (5 / 2) (by norm_num) (by norm_num)
  rw [hp]
  exact ⟨by norm_num, by norm_num, h6, h7⟩

/-- C10 counterexample: at the seconds value `-1` the formatter saturates all
fields to zero, so the denoted timestamp differs from the input by a full
second, violating the claimed round trip for every seconds value. -/
theorem c10_counterexample :
    srt_time_parts (-1) = (0, 0, 0, 0) ∧
    1 / 1000 < |(-1 : ℚ) - srt_time_value 0 0 0 0| := by
  have e1 : ftrunc ((-1 : ℚ) / 3600) = 0 := by
    rw [ftrunc, if_neg (by norm_num)]
    rw [Int.ceil_eq_zero_iff]
    constructor <;> norm_num
  have e2 : fRem (-1) 3600 = -1 := by
    rw [fRem, e1]
    norm_num
  have e3 : ftrunc ((-1 : ℚ) / 60) = 0 := by
    rw [ftrunc, if_neg (by norm_num)]
    rw [Int.ceil_eq_zero_iff]
    constructor <;> norm_num
  have e4 : fRem (-1) 60 = -1 := by
    rw [fRem, e3]
    norm_num
  have e5 : ftrunc (-1 : ℚ) = -1 := by
    rw [ftrunc, if_neg (by norm_num)]
    have h1 : ((-1 : ℤ) : ℚ) = -1 := by norm_num
    rw [← h1, Int.ceil_intCast]
  have e6 : fRem (-1) 1 = 0 := by
    rw [fRem]
    norm_num [e5]
  have t1 : toU32 ((-1 : ℚ) / 3600) = 0 := by
    rw [toU32, e1]
    rfl
  have t2 : toU32 (fRem (-1) 3600 / 60) = 0 := by
    rw [e2, toU32, e3]
    rfl
  have t3 : toU32 (fRem (-1) 60) = 0 := by
    rw [e4, toU32, e5]
    rfl
  have t4 : toU32 (fRem (-1) 1 * 1000) = 0 := by
    rw [e6, toU32]
    norm_num [ftrunc_of_nonneg le_rfl]
  constructor
  · rw [srt_time_parts, t1, t2, t3, t4]
  · rw [srt_time_value]
    rw [abs_of_nonpos (by norm_num)]
    norm_num

theorem enumFrom_map_getD {α β : Type} (f : ℕ × α → β) (dB : β) (dA : α) :
    ∀ (n : ℕ) (l : List α) (i : ℕ), i < l.length →
      ((l.enumFrom n).map f).getD i dB = f (n + i, l.getD i dA) := by
  intro n l
  induction l generalizing n with
  | nil =>
    intro i hi
    simp at hi
  | cons a t ih =>
    intro i hi
    cases i with
    | zero => simp [List.enumFrom]
    | succ j =>
      have hj : j < t.length := by simpa using hi
      have heq : n + (j + 1) = (n + 1) + j := by omega
      simp only [List.enumFrom, List.map_cons, List.getD_cons_succ, heq]
      exact ih (n + 1) j hj

/-- C8 (amended): for input text containing a non-whitespace character and a
positive duration, `generate_srt_from_text` emits one caption spanning the
whole duration when no sentence survives splitting, and otherwise one caption
per sentence in order, caption i spanning from i * duration / N to
(i + 1) * duration / N, contiguous, non-overlapping, starting at 0 and ending
exactly at the duration, each re-terminated with a period. -/
theorem c8_srt_captions_amended (text : Str) (d : ℚ)
    (hws : ∃ c ∈ text, isWs c = false) (hd : 0 < d) :
    (sentencesOf text = [] → srt_captions text d = [(0, d, trim text)]) ∧
    ((srt_captions text d).length =
      if sentencesOf text = [] then 1 else (sentencesOf text).length) ∧
    (sentencesOf text ≠ [] →
      (∀ i, i < (sentencesOf text).length →
        (srt_captions text d).getD i (0, 0, []) =
          ((i : ℚ) * (d / (sentencesOf text).length),
           ((i : ℚ) + 1) * (d / (sentencesOf text).length),
           (sentencesOf text).getD i [] ++ ['.'])) ∧
      (∀ i, i + 1 < (sentencesOf text).length →
        ((srt_captions text d).getD i (0, 0, [])).2.1 =
          ((srt_captions text d).getD (i + 1) (0, 0, [])).1) ∧
      ((srt_captions text d).getD 0 (0, 0, [])).1 = 0 ∧
      ((srt_captions text d).getD ((sentencesOf text).length - 1) (0, 0, [])).2.1 = d ∧
      (∀ i, i < (sentencesOf text).length →
        ((srt_captions text d).getD i (0, 0, [])).1 <
          ((srt_captions text d).getD i (0, 0, [])).2.1)) := by
  have htrim : ¬ (trim text).isEmpty = true := by
    rw [List.isEmpty_iff]
    intro hnil
    obtain ⟨c, hc, hcw⟩ := hws
    have := (trim_eq_nil_iff text).mp hnil c hc
    rw [hcw] at this
    exact Bool.false_ne_true this
  have henum : ∀ (l : List Str), l.enum = l.enumFrom 0 := fun _ => rfl
  have main : sentencesOf text ≠ [] →
      ∀ i, i < (sentencesOf text).length →
        (srt_captions text d).getD i (0, 0, []) =
          ((i : ℚ) * (d / (sentencesOf text).length),
           ((i : ℚ) + 1) * (d / (sentencesOf text).length),
           (sentencesOf text).getD i [] ++ ['.']) := by
    intro hs i hi
    rw [srt_captions, if_neg htrim,
      if_neg (fun h => hs (List.isEmpty_iff.mp h))]
    have := enumFrom_map_getD
      (fun is : ℕ × Str =>
        ((is.1 : ℚ) * (d / (sentencesOf text).length),
         ((is.1 : ℚ) + 1) * (d / (sentencesOf text).length),
         is.2 ++ ['.']))
      (0, 0, []) [] 0 (sentencesOf text) i hi
    rw [henum, this]
    simp
  have hNpos : sentencesOf text ≠ [] → (0 : ℚ) < (sentencesOf text).length := by
    intro hs
    have : 0 < (sentencesOf text).length := List.length_pos.mpr hs
    exact_mod_cast this
  refine ⟨?_, ?_, ?_⟩
  · intro hs
    rw [srt_captions, if_neg htrim, if_pos (List.isEmpty_iff.mpr hs)]
  · by_cases hs : sentencesOf text = []
    · rw [if_pos hs, srt_captions, if_neg htrim, if_pos (List.isEmpty_iff.mpr hs)]
      rfl
    · rw [if_neg hs, srt_captions, if_neg htrim,
        if_neg (fun h => hs (List.isEmpty_iff.mp h))]
      rw [List.length_map, List.enum_length]
  · intro hs
    have hN := hNpos hs
    refine ⟨main hs, ?_, ?_, ?_, ?_⟩
    · intro i hi
      rw [main hs i (by omega), main hs (i + 1) (by omega)]
      push_cast
      ring
    · have h0 : 0 < (sentencesOf text).length := List.length_pos.mpr hs
      rw [main hs 0 h0]
      norm_num
    · have h0 : 0 < (sentencesOf text).length := List.length_pos.mpr hs
      rw [main hs ((sentencesOf text).length - 1) (by omega)]
      have hcast : (((sentencesOf text).length - 1 : ℕ) : ℚ) =
          ((sentencesOf text).length : ℚ) - 1 := by
        have : (1 : ℕ) ≤ (sentencesOf text).length := h0
        push_cast [this]
        ring
      rw [hcast]
      field_simp
    · intro i hi
      rw [main hs i hi]
      have hq : 0 < d / (sentencesOf text).length := by positivity
      have : (i : ℚ) < (i : ℚ) + 1 := by linarith
      calc (i : ℚ) * (d / (sentencesOf text).length)
          < ((i : ℚ) + 1) * (d / (sentencesOf text).length) := by
            exact mul_lt_mul_of_pos_right this hq

theorem c8_srt_captions_amended_witness :
    (∃ c ∈ "Hi. Go.".data, isWs c = false) ∧ (0 : ℚ) < 10 ∧
    (srt_captions "Hi. Go.".data 10).length =
      (if sentencesOf "Hi. Go.".data = [] then 1
       else (sentencesOf "Hi. Go.".data).length) ∧
    ((srt_captions "Hi. Go.".data 10).getD 0 (0, 0, [])).1 = 0 := by
  obtain ⟨h1, h2, h3⟩ :=
    c8_srt_captions_amended "Hi. Go.".data 10 (by decide) (by norm_num)
  have hne : sentencesOf "Hi. Go.".data ≠ [] := by decide
  exact ⟨by decide, by norm_num, h2, (h3 hne).2.2.1⟩

/-- C8 counterexample: the text consisting of a single space is a non-empty
input with no sentences, yet the synthesizer emits no caption at all instead
of one caption spanning the whole duration. -/
theorem c8_counterexample :
    ([' '] : Str) ≠ [] ∧ sentencesOf [' '] = [] ∧ srt_captions [' '] 1 = [] := by
  refine ⟨by decide, by decide, ?_⟩
  rw [srt_captions, if_pos (by decide)]

/-- C1 counterexample: with boundary 298000 and an empty new-chunk list, the
code takes the unfiltered branch and retains an accumulated segment that
starts and ends after the boundary, although the claimed retention rule
(end at/before boundary or start before boundary) would drop it. -/
theorem c1_counterexample :
    merge_step [(299000, 300000, ['a'])] [] 298000 = [(299000, 300000, ['a'])] ∧
    ¬ ((300000 : ℤ) ≤ 298000 ∨ (299000 : ℤ) < 298000) := by
  constructor
  · rw [merge_step, if_neg (by simp)]
    rfl
  · decide

/-- C1 (amended): when both the accumulated list and the new chunk list are
non-empty, the merge retains exactly the accumulated segments that end at or
before the boundary or start before it and appends exactly the new segments
that start at or after the boundary; when either list is empty the new
segments are appended unfiltered and all accumulated segments are retained;
in every case an accumulated segment lying fully before the boundary is
preserved. -/
theorem c1_merge_step_amended (acc new : List Seg) (b : ℤ)
    (h1 : acc ≠ []) (h2 : new ≠ []) :
    merge_step acc new b =
      (acc.filter fun s => decide (s.2.1 ≤ b) || decide (s.1 < b)) ++
        (new.filter fun s => decide (b ≤ s.1)) ∧
    (∀ (acc2 new2 : List Seg), acc2 = [] ∨ new2 = [] →
      merge_step acc2 new2 b = acc2 ++ new2) ∧
    (∀ (acc3 new3 : List Seg) (s : Seg), s ∈ acc3 → s.2.1 ≤ b →
      s ∈ merge_step acc3 new3 b) := by
  refine ⟨by rw [merge_step, if_pos ⟨h1, h2⟩], ?_, ?_⟩
  · intro acc2 new2 h
    rw [merge_step, if_neg]
    rintro ⟨ha, hb⟩
    rcases h with h | h
    · exact ha h
    · exact hb h
  · intro acc3 new3 s hs hsb
    rw [merge_step]
    by_cases hc : acc3 ≠ [] ∧ new3 ≠ []
    · rw [if_pos hc]
      refine List.mem_append_left _ (List.mem_filter.mpr ⟨hs, ?_⟩)
      simp [hsb]
    · rw [if_neg hc]
      exact List.mem_append_left _ hs

theorem c1_merge_step_amended_witness :
    ([((0 : ℤ), (100 : ℤ), ['x'])] : List Seg) ≠ [] ∧
    ([((298000 : ℤ), (299000 : ℤ), ['y'])] : List Seg) ≠ [] ∧
    merge_step [((0 : ℤ), (100 : ℤ), ['x'])]
        [((298000 : ℤ), (299000 : ℤ), ['y'])] 298000 =
      ([((0 : ℤ), (100 : ℤ), ['x'])].filter fun s =>
          decide (s.2.1 ≤ (298000 : ℤ)) || decide (s.1 < (298000 : ℤ))) ++
        ([((298000 : ℤ), (299000 : ℤ), ['y'])].filter fun s =>
          decide ((298000 : ℤ) ≤ s.1)) := by
  refine ⟨by simp, by simp, ?_⟩
  exact (c1_merge_step_amended [((0 : ℤ), (100 : ℤ), ['x'])]
    [((298000 : ℤ), (299000 : ℤ), ['y'])] 298000 (by simp) (by simp)).1

/-- C2: above the 300 s threshold the stride is 298 s, the chunk count is the
ceiling of (duration - 2) / 298 (at least one), no chunk is skipped, chunk i
starts at i * 298 s, and every chunk is 300 s long except the final one,
which runs to the true end of the audio. -/
theorem c2_chunk_layout (d : ℚ) (hd : CHUNK_DURATION_SECS < d) :
    effective_chunk_duration = 298 ∧
    (num_chunks d : ℤ) = ⌈(d - 2) / 298⌉ ∧
    1 ≤ num_chunks d ∧
    chunk_specs d = (List.range (num_chunks d)).map fun i : ℕ =>
      ((i : ℚ) * 298,
       if i = num_chunks d - 1 then d - (i : ℚ) * 298 else 300) := by
  have h298 : effective_chunk_duration = 298 := by
    norm_num [effective_chunk_duration, CHUNK_DURATION_SECS, CHUNK_OVERLAP_SECS]
  have hd2 : (300 : ℚ) < d := by
    simpa [CHUNK_DURATION_SECS] using hd
  have hkdef : ⌈(d - CHUNK_OVERLAP_SECS) / effective_chunk_duration⌉ =
      ⌈(d - 2) / 298⌉ := by
    rw [h298]
    norm_num [CHUNK_OVERLAP_SECS]
  have hk2 : 2 ≤ ⌈(d - 2) / 298⌉ := by
    have h1 : (1 : ℚ) < (d - 2) / 298 := by
      rw [lt_div_iff₀ (by norm_num : (0 : ℚ) < 298)]
      linarith
    have := Int.lt_ceil.mpr (by exact_mod_cast h1 : ((1 : ℤ) : ℚ) < (d - 2) / 298)
    omega
  have hnum : num_chunks d = (⌈(d - 2) / 298⌉).toNat := by
    rw [num_chunks, hkdef]
    omega
  have hn2 : 2 ≤ num_chunks d := by
    rw [hnum]
    omega
  have hncast : ((num_chunks d : ℕ) : ℤ) = ⌈(d - 2) / 298⌉ := by
    rw [hnum]
    omega
  have hlast : (2 : ℚ) < d - ((num_chunks d - 1 : ℕ) : ℚ) * 298 := by
    have hceil := Int.ceil_lt_add_one ((d - 2) / 298)
    have hc1 : ((num_chunks d - 1 : ℕ) : ℤ) = ⌈(d - 2) / 298⌉ - 1 := by
      omega
    have hc2 : ((num_chunks d - 1 : ℕ) : ℚ) = ((⌈(d - 2) / 298⌉ : ℤ) : ℚ) - 1 := by
      exact_mod_cast congrArg (fun z : ℤ => (z : ℚ)) hc1
    rw [hc2]
    have : ((⌈(d - 2) / 298⌉ : ℤ) : ℚ) - 1 < (d - 2) / 298 := by
      linarith
    have h3 : (((⌈(d - 2) / 298⌉ : ℤ) : ℚ) - 1) * 298 < d - 2 := by
      rw [← lt_div_iff₀ (by norm_num : (0 : ℚ) < 298)]
      exact this
    linarith
  have hkeep : ∀ i, i < num_chunks d → ¬ chunk_len d i < 1 / 2 := by
    intro i hi
    rw [chunk_len]
    by_cases hilast : i = num_chunks d - 1
    · rw [if_pos hilast, chunk_start, h298, hilast]
      intro hcon
      have := hlast
      linarith
    · rw [if_neg hilast, CHUNK_DURATION_SECS]
      norm_num
  constructor
  · exact h298
  constructor
  · exact hncast
  constructor
  · omega
  · rw [chunk_specs]
    rw [List.filter_eq_self.mpr]
    · apply List.map_congr_left
      intro i hi
      have hi2 := List.mem_range.mp hi
      rw [chunk_start, chunk_len, h298, chunk_start, h298]
      rw [CHUNK_DURATION_SECS]
    · intro p hp
      obtain ⟨i, hi, hpi⟩ := List.mem_map.mp hp
      have hkeepi := hkeep i (List.mem_range.mp hi)
      rw [← hpi]
      simpa using hkeepi

theorem num_chunks_700 : num_chunks 700 = 3 := by
  have hc : ⌈((700 : ℚ) - CHUNK_OVERLAP_SECS) / effective_chunk_duration⌉ = 3 := by
    have h1 : ((700 : ℚ) - CHUNK_OVERLAP_SECS) / effective_chunk_duration =
        698 / 298 := by
      norm_num [CHUNK_OVERLAP_SECS, effective_chunk_duration, CHUNK_DURATION_SECS]
    rw [h1, Int.ceil_eq_iff]
    norm_num
  rw [num_chunks, hc]
  rfl

theorem chunk_specs_700 : chunk_specs 700 = [(0, 300), (298, 300), (596, 104)] := by
  have e298 : effective_chunk_duration = 298 := by
    norm_num [effective_chunk_duration, CHUNK_DURATION_SECS, CHUNK_OVERLAP_SECS]
  have l0 : chunk_len 700 0 = 300 := by
    rw [chunk_len, num_chunks_700, if_neg (by norm_num), CHUNK_DURATION_SECS]
  have l1 : chunk_len 700 1 = 300 := by
    rw [chunk_len, num_chunks_700, if_neg (by norm_num), CHUNK_DURATION_SECS]
  have l2 : chunk_len 700 2 = 104 := by
    rw [chunk_len, num_chunks_700, if_pos (by norm_num), chunk_start, e298]
    norm_num
  have s0 : chunk_start 0 = 0 := by
    rw [chunk_start, e298]
    norm_num
  have s1 : chunk_start 1 = 298 := by
    rw [chunk_start, e298]
    norm_num
  have s2 : chunk_start 2 = 596 := by
    rw [chunk_start, e298]
    norm_num
  rw [chunk_specs, num_chunks_700]
  have hrange : List.range 3 = [0, 1, 2] := by rfl
  rw [hrange]
  simp only [List.map_cons, List.map_nil, s0, s1, s2, l0, l1, l2]
  rw [List.filter_eq_self.mpr]
  intro p hp
  simp only [List.mem_cons, List.not_mem_nil, or_false] at hp
  rcases hp with h | h | h <;> rw [h] <;> norm_num

theorem c2_chunk_layout_witness :
    CHUNK_DURATION_SECS < 700 ∧
    (num_chunks 700 : ℤ) = ⌈((700 : ℚ) - 2) / 298⌉ ∧
    num_chunks 700 = 3 ∧
    chunk_specs 700 = [(0, 300), (298, 300), (596, 104)] := by
  obtain ⟨h1, h2, h3, h4⟩ :=
    c2_chunk_layout 700 (by norm_num [CHUNK_DURATION_SECS])
  exact ⟨by norm_num [CHUNK_DURATION_SECS], h2, num_chunks_700, chunk_specs_700⟩

/-- C5: the per-chunk loop of `transcribe_chunked` consults no cancellation
flag; on the failing input of a 700 s file it extracts and transcribes all
three chunks unconditionally, so no observation of the flag can stop the
loop, contrary to the claimed per-iteration cancellation check. -/
theorem c5_chunk_loop_ignores_cancellation :
    chunk_specs 700 = [(0, 300), (298, 300), (596, 104)] ∧
    (chunk_specs 700).length = 3 := by
  refine ⟨chunk_specs_700, ?_⟩
  rw [chunk_specs_700]
  rfl

/-- C3: the transcription progress forwarder only guards against the
`completed` status, so a progress event arriving after cancellation
overwrites the `cancelled` status with a `transcribing:` phase, resurrecting
the task; the divergence is exhibited on a concrete cancelled task. -/
theorem c3_cancelled_task_resurrected :
    (forward_transcribe_progress cancelled_task "transcribing" 50
        "Processing chunk 2/3").status = "transcribing:transcribing" ∧
    (forward_transcribe_progress cancelled_task "transcribing" 50
        "Processing chunk 2/3").status ≠ "cancelled" ∧
    cancelled_task.status = "cancelled" := by
  refine ⟨?_, ?_, rfl⟩
  · rw [forward_transcribe_progress, if_neg (by decide), if_neg (by decide)]
    decide
  · rw [forward_transcribe_progress, if_neg (by decide), if_neg (by decide)]
    decide

/-- C4: a failed transcription completes a remote-fetch task with progress
100 and a warning in the error field, while a local-transcribe task (not
already cancelled) transitions to `error` with the failure message stored. -/
theorem c4_failure_routing (t : Task) (e : String)
    (hc : t.status ≠ "cancelled") :
    (remote_transcription_failed t e).status = "completed" ∧
    (remote_transcription_failed t e).progress = 100 ∧
    (remote_transcription_failed t e).error =
      some ("Subtitle generation failed: " ++ e) ∧
    (local_transcription_failed t e).status = "error" ∧
    (local_transcription_failed t e).error = some e := by
  refine ⟨rfl, rfl, rfl, ?_, ?_⟩
  · rw [local_transcription_failed, if_pos hc]
  · rw [local_transcription_failed, if_pos hc]

theorem c4_failure_routing_witness :
    ({ status := "transcribing:transcribing", progress := 55, error := none,
       transcription_progress := some 55,
       transcription_message := none : Task }).status ≠ "cancelled" ∧
    (remote_transcription_failed
      { status := "transcribing:transcribing", progress := 55, error := none,
        transcription_progress := some 55, transcription_message := none }
      "boom").status = "completed" ∧
    (local_transcription_failed
      { status := "transcribing:transcribing", progress := 55, error := none,
        transcription_progress := some 55, transcription_message := none }
      "boom").status = "error" := by
  have h := c4_failure_routing
    { status := "transcribing:transcribing", progress := 55, error := none,
      transcription_progress := some 55, transcription_message := none }
    "boom" (by decide)
  exact ⟨by decide, h.1, h.2.2.2.1⟩

theorem moonshine_chunk_loop_ok (runs : List ChunkRun)
    (hext : ∀ r ∈ runs, r.isExtractFail = false) :
    moonshine_chunk_loop runs = .ok (kept_texts runs) := by
  induction runs with
  | nil => rfl
  | cons r rest ih =>
    have hrest : ∀ x ∈ rest, x.isExtractFail = false := by
      intro x hx
      exact hext x (List.mem_cons_of_mem r hx)
    have hrec := ih hrest
    cases r with
    | extractFailed e =>
      have := hext (ChunkRun.extractFailed e) (List.mem_cons_self _ _)
      simp [ChunkRun.isExtractFail] at this
    | infer res =>
      cases res with
      | error e =>
        rw [show moonshine_chunk_loop (ChunkRun.infer (Except.error e) :: rest) =
          moonshine_chunk_loop rest from rfl, hrec]
        simp only [kept_texts, List.filterMap_cons, chunk_kept]
      | ok t =>
        by_cases hemp : (trim t).isEmpty = true
        · rw [moonshine_chunk_loop, if_pos hemp, hrec]
          simp only [kept_texts, List.filterMap_cons, chunk_kept, if_pos hemp]
        · rw [moonshine_chunk_loop, if_neg hemp, hrec]
          simp only [kept_texts, List.filterMap_cons, chunk_kept, if_neg hemp]
          rfl

theorem kept_texts_eq_nil_iff (runs : List ChunkRun) :
    kept_texts runs = [] ↔
      ∀ t, ChunkRun.infer (Except.ok t) ∈ runs → (trim t).isEmpty = true := by
  rw [kept_texts, List.filterMap_eq_nil_iff]
  constructor
  · intro h t ht
    have h2 := h _ ht
    rw [chunk_kept] at h2
    by_cases hemp : (trim t).isEmpty = true
    · exact hemp
    · rw [if_neg hemp] at h2
      exact absurd h2 (by simp)
  · intro h r hr
    cases r with
    | extractFailed e => rfl
    | infer res =>
      cases res with
      | error e => rfl
      | ok t =>
        rw [chunk_kept, if_pos (h t hr)]

theorem exists_not_ws_mem_kept (runs : List ChunkRun) (x : Str)
    (hx : x ∈ kept_texts runs) : ∃ c ∈ x, isWs c = false := by
  rw [kept_texts] at hx
  obtain ⟨r, hr, hfr⟩ := List.mem_filterMap.mp hx
  cases r with
  | extractFailed e => exact absurd hfr (by simp [chunk_kept])
  | infer res =>
    cases res with
    | error e => exact absurd hfr (by simp [chunk_kept])
    | ok t =>
      rw [chunk_kept] at hfr
      by_cases hemp : (trim t).isEmpty = true
      · rw [if_pos hemp] at hfr
        exact absurd hfr (by simp)
      · rw [if_neg hemp] at hfr
        have hxt : x = trim t := by
          injection hfr.symm
        have htne : trim t ≠ [] := by
          intro hnil
          exact hemp (by rw [hnil]; rfl)
        obtain ⟨c, hc, hcw⟩ := exists_not_ws_of_trim_ne_nil t htne
        exact ⟨c, by rw [hxt]; exact hc, hcw⟩

theorem trim_join_kept_ne_nil (runs : List ChunkRun)
    (h : kept_texts runs ≠ []) :
    (trim (join_with [' '] (kept_texts runs))).isEmpty = false := by
  obtain ⟨x, tl, hcons⟩ := List.exists_cons_of_ne_nil h
  obtain ⟨c, hc, hcw⟩ := exists_not_ws_mem_kept runs x (by rw [hcons]; simp)
  have hmem : c ∈ join_with [' '] (kept_texts runs) := by
    rw [hcons]
    exact mem_join_with_head [' '] x tl c hc
  rw [Bool.eq_false_iff]
  intro hemp
  have hnil : trim (join_with [' '] (kept_texts runs)) = [] :=
    List.isEmpty_iff.mp hemp
  have h3 := (trim_eq_nil_iff _).mp hnil c hmem
  rw [hcw] at h3
  exact Bool.false_ne_true h3

/-- C9: on audio longer than 30 s the text-only engine uses ceil(d / 30)
chunks; a chunk whose transcription fails is skipped while the loop
continues; the kept transcripts are exactly the trimmed non-whitespace chunk
texts in order; the final transcript is their space-separated concatenation;
and the run fails with the empty-transcript error exactly when no chunk
yields non-whitespace text. -/
theorem c9_moonshine_chunked (d : ℚ) (hd : 30 < d) (runs : List ChunkRun)
    (hlen : runs.length = moonshine_num_chunks d)
    (hext : ∀ r ∈ runs, r.isExtractFail = false) :
    (moonshine_num_chunks d : ℤ) = ⌈d / 30⌉ ∧
    (∀ (e : String) (rest : List ChunkRun),
      moonshine_chunk_loop (ChunkRun.infer (Except.error e) :: rest) =
        moonshine_chunk_loop rest) ∧
    moonshine_chunk_loop runs = .ok (kept_texts runs) ∧
    (∀ model : String,
      (moonshine_transcribe_run model true true d runs).2 =
          .error moonshine_empty_error ↔
        ∀ t, ChunkRun.infer (Except.ok t) ∈ runs → (trim t).isEmpty = true) ∧
    (∀ model : String, kept_texts runs ≠ [] →
      (moonshine_transcribe_run model true true d runs).2 =
        .ok (generate_srt_from_text
          (trim (join_with [' '] (kept_texts runs))) d)) := by
  have hok := moonshine_chunk_loop_ok runs hext
  have hcount : (moonshine_num_chunks d : ℤ) = ⌈d / 30⌉ := by
    have hpos : (0 : ℚ) ≤ d / 30 := by positivity
    have hnn : 0 ≤ ⌈d / 30⌉ := Int.ceil_nonneg hpos
    rw [moonshine_num_chunks, MOONSHINE_CHUNK_DURATION]
    omega
  have hrun : ∀ model : String, moonshine_transcribe_run model true true d runs =
      (if (trim (join_with [' '] (kept_texts runs))).isEmpty then
        (PEvent.probe :: moonshine_chunk_events runs,
         .error moonshine_empty_error)
       else
        (PEvent.probe :: moonshine_chunk_events runs ++ [PEvent.writeSrt],
         .ok (generate_srt_from_text
          (trim (join_with [' '] (kept_texts runs))) d))) := by
    intro model
    rw [moonshine_transcribe_run, if_neg (by simp), if_neg (by simp), hok]
  refine ⟨hcount, fun e rest => rfl, hok, ?_, ?_⟩
  · intro model
    rw [hrun model]
    by_cases hemp : (trim (join_with [' '] (kept_texts runs))).isEmpty = true
    · rw [if_pos hemp]
      constructor
      · intro _
        rw [← kept_texts_eq_nil_iff]
        by_contra hne
        rw [trim_join_kept_ne_nil runs hne] at hemp
        exact Bool.false_ne_true hemp
      · intro _
        rfl
    · rw [if_neg hemp]
      constructor
      · intro hcon
        exact absurd hcon (by simp)
      · intro hall
        have hnil : kept_texts runs = [] := (kept_texts_eq_nil_iff runs).mpr hall
        rw [hnil] at hemp
        exact absurd rfl hemp
  · intro model hne
    rw [hrun model, if_neg (by rw [trim_join_kept_ne_nil runs hne]; simp)]

theorem moonshine_num_chunks_100 : moonshine_num_chunks 100 = 4 := by
  have hc : ⌈(100 : ℚ) / MOONSHINE_CHUNK_DURATION⌉ = 4 := by
    rw [MOONSHINE_CHUNK_DURATION, Int.ceil_eq_iff]
    norm_num
  rw [moonshine_num_chunks, hc]
  rfl

theorem c9_moonshine_chunked_witness :
    (30 : ℚ) < 100 ∧
    c9_example_runs.length = moonshine_num_chunks 100 ∧
    moonshine_chunk_loop c9_example_runs = .ok (kept_texts c9_example_runs) ∧
    (moonshine_transcribe_run "tiny" true true 100 c9_example_runs).2 =
      .ok (generate_srt_from_text
        (trim (join_with [' '] (kept_texts c9_example_runs))) 100) := by
  have hlen : c9_example_runs.length = moonshine_num_chunks 100 := by
    rw [moonshine_num_chunks_100]
    rfl
  obtain ⟨h1, h2, h3, h4, h5⟩ :=
    c9_moonshine_chunked 100 (by norm_num) c9_example_runs hlen (by decide)
  exact ⟨by norm_num, hlen, h3, h5 "tiny" (by decide)⟩

theorem foldl_keeps_nil {α β : Type} (f : List β → α → List β)
    (h : ∀ a, f [] a = []) : ∀ l : List α, l.foldl f [] = [] := by
  intro l
  induction l with
  | nil => rfl
  | cons a t ih =>
    rw [List.foldl_cons, h a]
    exact ih

theorem collect_segments_nil (off : ℤ) (raw : List (ℤ × ℤ × Str))
    (h : ∀ r ∈ raw, (trim r.2.2).isEmpty = true) :
    collect_segments off raw = [] := by
  rw [collect_segments, List.filterMap_eq_nil_iff]
  intro r hr
  rw [if_pos (h r hr)]

theorem whisper_chunked_run_nil (d : ℚ) (segs : ℕ → List (ℤ × ℤ × Str))
    (h : ∀ i, collect_segments (ftrunc (chunk_start i * 1000)) (segs i) = []) :
    whisper_chunked_run d segs = [] := by
  rw [whisper_chunked_run]
  apply foldl_keeps_nil
  intro a
  by_cases hc : chunk_len d a < 1 / 2
  · rw [if_pos hc]
  · rw [if_neg hc, h a, merge_step, if_neg (by simp)]
    rfl

theorem writeSrt_not_mem_whisper_events (d : ℚ) :
    PEvent.writeSrt ∉ whisper_chunk_events d := by
  rw [whisper_chunk_events]
  have hgen : ∀ (l : List ℕ) (acc : List PEvent), PEvent.writeSrt ∉ acc →
      PEvent.writeSrt ∉ l.foldl
        (fun evs i => if chunk_len d i < 1 / 2 then evs
          else evs ++ [PEvent.extract, PEvent.inference]) acc := by
    intro l
    induction l with
    | nil =>
      intro acc h
      exact h
    | cons a t ih =>
      intro acc h
      rw [List.foldl_cons]
      apply ih
      by_cases hc : chunk_len d a < 1 / 2
      · rw [if_pos hc]
        exact h
      · rw [if_neg hc]
        intro hmem
        rcases List.mem_append.mp hmem with h1 | h1
        · exact h h1
        · simp at h1
  exact hgen _ [] (by simp)

theorem writeSrt_not_mem_moonshine_events (runs : List ChunkRun) :
    PEvent.writeSrt ∉ moonshine_chunk_events runs := by
  induction runs with
  | nil => simp [moonshine_chunk_events]
  | cons r t ih =>
    cases r with
    | extractFailed e => simp [moonshine_chunk_events]
    | infer res =>
      simp only [moonshine_chunk_events, List.mem_cons]
      rintro (h1 | h1 | h1)
      · exact absurd h1 (by simp)
      · exact absurd h1 (by simp)
      · exact ih h1

/-- C7: inference yielding no non-whitespace text fails with the
empty-transcript error and writes no caption file: all-whitespace raw
segments are dropped so the whisper engine accumulates no segments and
errors before its SRT write, and an all-whitespace set of chunk transcripts
makes the moonshine run error before its SRT write. -/
theorem c7_empty_result (raw : List (ℤ × ℤ × Str)) (off : ℤ) (d : ℚ)
    (model : String) (runs : List ChunkRun)
    (hraw : ∀ r ∈ raw, (trim r.2.2).isEmpty = true)
    (hruns : ∀ t, ChunkRun.infer (Except.ok t) ∈ runs →
      (trim t).isEmpty = true)
    (hext : ∀ r ∈ runs, r.isExtractFail = false) :
    collect_segments off raw = [] ∧
    whisper_finalize [] = .error empty_transcript_error ∧
    whisper_finalize_single [] = .error empty_transcript_error ∧
    (whisper_transcribe_run true model d fun _ => raw).2 =
      .error empty_transcript_error ∧
    PEvent.writeSrt ∉ (whisper_transcribe_run true model d fun _ => raw).1 ∧
    (moonshine_transcribe_run model true true d runs).2 =
      .error moonshine_empty_error ∧
    PEvent.writeSrt ∉ (moonshine_transcribe_run model true true d runs).1 := by
  have hcoll : ∀ o : ℤ, collect_segments o raw = [] := fun o =>
    collect_segments_nil o raw hraw
  have hwrun : whisper_transcribe_run true model d (fun _ => raw) =
      (if CHUNK_DURATION_SECS < d then
        (PEvent.probe :: whisper_chunk_events d, .error empty_transcript_error)
       else
        ([PEvent.probe, PEvent.inference], .error empty_transcript_error)) := by
    by_cases hdur : CHUNK_DURATION_SECS < d
    · rw [whisper_transcribe_run, if_pos hdur, if_neg (by simp), if_pos hdur]
      rw [whisper_chunked_run_nil d _ (fun i => hcoll _)]
      rfl
    · rw [whisper_transcribe_run, if_neg hdur, if_neg (by simp), if_neg hdur]
      rw [hcoll 0]
      rfl
  have hkept : kept_texts runs = [] := (kept_texts_eq_nil_iff runs).mpr hruns
  have hmrun : moonshine_transcribe_run model true true d runs =
      (PEvent.probe :: moonshine_chunk_events runs,
       .error moonshine_empty_error) := by
    rw [moonshine_transcribe_run, if_neg (by simp), if_neg (by simp),
      moonshine_chunk_loop_ok runs hext, hkept]
    rfl
  refine ⟨hcoll off, rfl, rfl, ?_, ?_, ?_, ?_⟩
  · rw [hwrun]
    by_cases hdur : CHUNK_DURATION_SECS < d
    · rw [if_pos hdur]
    · rw [if_neg hdur]
  · rw [hwrun]
    by_cases hdur : CHUNK_DURATION_SECS < d
    · rw [if_pos hdur]
      intro hmem
      rcases List.mem_cons.mp hmem with h1 | h1
      · exact absurd h1 (by simp)
      · exact writeSrt_not_mem_whisper_events d h1
    · rw [if_neg hdur]
      intro hmem
      simp at hmem
  · rw [hmrun]
  · rw [hmrun]
    intro hmem
    rcases List.mem_cons.mp hmem with h1 | h1
    · exact absurd h1 (by simp)
    · exact writeSrt_not_mem_moonshine_events runs h1

theorem c7_empty_result_witness :
    (∀ r ∈ [((0 : ℤ), (50 : ℤ), [' ', ' '])], (trim r.2.2).isEmpty = true) ∧
    collect_segments 0 [((0 : ℤ), (50 : ℤ), [' ', ' '])] = [] ∧
    (whisper_transcribe_run true "base" 700 fun _ =>
      [((0 : ℤ), (50 : ℤ), [' ', ' '])]).2 = .error empty_transcript_error ∧
    (moonshine_transcribe_run "base" true true 700
      [ChunkRun.infer (Except.error "subprocess failed")]).2 =
      .error moonshine_empty_error := by
  obtain ⟨h1, h2, h3, h4, h5, h6, h7⟩ :=
    c7_empty_result [((0 : ℤ), (50 : ℤ), [' ', ' '])] 0 700 "base"
      [ChunkRun.infer (Except.error "subprocess failed")]
      (by decide) (by intro t ht; simp at ht) (by decide)
  exact ⟨by decide, h1, h4, h6⟩

/-- C6 counterexample: with the whisper model missing, the transcribe run
still performs the ffprobe duration query (an external subprocess) before
failing with the not-installed error, so the failure does not precede every
subprocess spawn as claimed. -/
theorem c6_counterexample :
    whisper_transcribe_run false "large-v3" 700 (fun _ => []) =
      ([PEvent.probe], .error (whisper_not_installed_error "large-v3")) ∧
    PEvent.probe ∈ (whisper_transcribe_run false "large-v3" 700 fun _ => []).1 := by
  have h7 : CHUNK_DURATION_SECS < (700 : ℚ) := by
    norm_num [CHUNK_DURATION_SECS]
  constructor
  · rw [whisper_transcribe_run, if_pos h7, if_pos rfl]
  · rw [whisper_transcribe_run, if_pos h7, if_pos rfl]
    simp

/-- C6 (amended): a transcribe call with an unavailable engine is rejected by
the manager before the engine runs (no subprocess at all); the text-only
engine with missing model files fails before any subprocess; the whisper
engine with a missing model file fails with the not-installed error after
only the ffprobe duration query, with no extraction, no inference and no
caption write — so no transcription is ever attempted. -/
theorem c6_not_installed_amended (engine_id model : String) (d : ℚ)
    (segs : ℕ → List (ℤ × ℤ × Str)) (runs : List ChunkRun)
    (engine_run : List PEvent × Except String Str) :
    manager_transcribe engine_id false engine_run =
      ([], .error ("Engine \x27" ++ engine_id ++ "\x27 is not installed")) ∧
    whisper_transcribe_run false model d segs =
      ([PEvent.probe], .error (whisper_not_installed_error model)) ∧
    PEvent.extract ∉ (whisper_transcribe_run false model d segs).1 ∧
    PEvent.inference ∉ (whisper_transcribe_run false model d segs).1 ∧
    PEvent.writeSrt ∉ (whisper_transcribe_run false model d segs).1 ∧
    moonshine_transcribe_run model false true d runs =
      ([], .error ("Model \x27" ++ model ++ "\x27 is not installed")) := by
  have hw : whisper_transcribe_run false model d segs =
      ([PEvent.probe], .error (whisper_not_installed_error model)) := by
    by_cases hdur : CHUNK_DURATION_SECS < d
    · rw [whisper_transcribe_run, if_pos hdur, if_pos rfl]
    · rw [whisper_transcribe_run, if_neg hdur, if_pos rfl]
  refine ⟨?_, hw, ?_, ?_, ?_, ?_⟩
  · rw [manager_transcribe, if_pos rfl]
  · rw [hw]
    simp
  · rw [hw]
    simp
  · rw [hw]
    simp
  · rw [moonshine_transcribe_run, if_pos rfl]

end Zinc
